import Mathlib

/-!
Shallow embedding of the analog stepper drive loop
(`logic/analog_steppers_logic.py`, class `AnalogSteppersLogic`) and of the
thumbstick normalization of the joystick reader
(`hardware/joystick/xinput.py`, class `JoytickXInput`), with theorems
checking the specification's claims about them.

Modelling conventions:
* Python floats become rationals (`ℚ`); `np.trunc` and `int(...)` become
  truncation toward zero on `ℚ`.
* Calls to the stepper hardware, the timer and the logger become an emitted
  list of `Action` values; the mutable attributes (`_last_value`, `_enabled`
  and the Qt timer) become a `LogicState` record threaded explicitly.
* The external stimuli of the module (its public entry points, the timer
  firing, and a write of a pending value by the external input source) are
  an `Event` type; `run` folds a list of events into a final state and the
  concatenated list of emitted actions.
-/

namespace AnalogSteppers

/-- Truncation toward zero of a rational: the meaning of `np.trunc` (and of
Python's `int(...)`): floor for nonnegative values, ceiling for negative
ones. -/
def truncQ (q : ℚ) : ℤ := if 0 ≤ q then ⌊q⌋ else ⌈q⌉

/-- One slot of the `axis` ConfigOption tuple: `some name` for a configured
axis, `none` for the `None` placeholder of a disabled slot. -/
abbrev Axis := Option String

/-- Embeds Python's `list.index` as used in `move`
(`i = self._axis.index(axis)`): the index of the first occurrence of `x`
(the list length if `x` is absent, a case `move` never reaches). -/
def listIndex (x : Axis) : List Axis → ℕ
  | [] => 0
  | y :: l => if y = x then 0 else listIndex x l + 1

/-- Embeds Python list indexing `self._last_value[i]` (0 as a fallback for
an out-of-range index, which the source never reaches for a length-3
list and up to 3 axis slots). -/
def getQ (l : List ℚ) (i : ℕ) : ℚ := (l.get? i).getD 0

/-- The ConfigOptions of `AnalogSteppersLogic`, with their defaults:
`ui_frequency` 10, `hardware_frequency` 1000, `hardware_voltage` 40 and
`axis` `('x', 'y', None)`. -/
structure Config where
  ui_frequency : ℚ
  hardware_frequency : ℚ
  hardware_voltage : ℚ
  axis : List Axis
  deriving DecidableEq

/-- An observable effect of the logic module: a call onto the stepper
hardware (`frequency`, `voltage`, `steps`, `stop`), a timer operation
(`timer.start(ms)`, `timer.stop()`), an error log, or an operation on the
`threadlock` Mutex.  The Mutex is created in `__init__` and never acquired
anywhere in the class, so `lockAcquire`/`lockRelease` are never emitted by
any embedded operation; the constructors exist so that absence of locking
is a statable property. -/
inductive Action where
  | frequency (axis : String) (value : ℚ)
  | voltage (axis : String) (value : ℚ)
  | steps (axis : String) (count : ℤ)
  | stop
  | timerStart (msec : ℤ)
  | timerStop
  | logError (value : ℚ)
  | lockAcquire
  | lockRelease
  deriving DecidableEq

/-- The mutable state of `AnalogSteppersLogic`: `_last_value` (the per-slot
pending analog commands, initially `[0., .0, .0]`), `_enabled`, and whether
the single-shot timer is currently armed. -/
structure LogicState where
  last_value : List ℚ
  enabled : Bool
  timerArmed : Bool
  deriving DecidableEq

/-- The state of a freshly constructed module: `_last_value = [0., .0, .0]`,
`_enabled = False`, timer not armed. -/
def initState : LogicState := ⟨[0, 0, 0], false, false⟩

/-- The timer interval of `start_timer`:
`int(1000 * 1 / self._ui_frequency)` milliseconds. -/
def timer_interval (cfg : Config) : ℤ := truncQ (1000 * 1 / cfg.ui_frequency)

/-- Embeds `start_timer`: `self.timer.start(int(1000 * 1 / self._ui_frequency))`. -/
def start_timer (cfg : Config) (s : LogicState) : LogicState × List Action :=
  ({ s with timerArmed := true }, [Action.timerStart (timer_interval cfg)])

/-- Embeds `startLoop`: `self._enabled = True` then `self.start_timer()`. -/
def startLoop (cfg : Config) (s : LogicState) : LogicState × List Action :=
  start_timer cfg { s with enabled := true }

/-- Embeds `stopLoop`: `self.timer.stop()`, `self._enabled = False`,
`self._hardware.stop()` — the hardware stop is issued unconditionally on
every call. -/
def stopLoop (s : LogicState) : LogicState × List Action :=
  ({ s with timerArmed := false, enabled := false }, [Action.timerStop, Action.stop])

/-- Embeds `move_axis(axis, analog)`: return immediately on an exactly-zero
value; log an error when the value is outside `[-1.0, 1.0]` but fall
through (the source has no `return` in the error branch); then send
`np.trunc(hardware_frequency / ui_frequency * analog)` steps. -/
def move_axis (cfg : Config) (axis : String) (analog : ℚ) : List Action :=
  if analog = 0 then []
  else
    (if analog < -1 ∨ analog > 1 then [Action.logError analog] else [])
      ++ [Action.steps axis (truncQ (cfg.hardware_frequency / cfg.ui_frequency * analog))]

/-- Embeds the `for axis in self._axis` body of `move`, recursing over the
remaining suffix of the axis tuple.  A falsy entry (`None`, or an empty
name) is skipped; otherwise `i = self._axis.index(axis)` is the first
index of the name in the full configured tuple, the pending value at `i`
is read and reset to `0`, and `move_axis` is invoked on it. -/
def moveGo (cfg : Config) : List Axis → LogicState → LogicState × List Action
  | [], s => (s, [])
  | none :: rest, s => moveGo cfg rest s
  | some a :: rest, s =>
    if a.isEmpty then moveGo cfg rest s
    else
      let i := listIndex (some a) cfg.axis
      let value := getQ s.last_value i
      let s1 := { s with last_value := s.last_value.set i 0 }
      let res := moveGo cfg rest s1
      (res.1, move_axis cfg a value ++ res.2)

/-- Embeds `move`: iterate the loop body over the configured axis tuple. -/
def move (cfg : Config) (s : LogicState) : LogicState × List Action :=
  moveGo cfg cfg.axis s

/-- Embeds `loop`: `if self._enabled: self.start_timer(); self.move()` —
the timer is re-armed first, then the per-axis work runs. -/
def loop (cfg : Config) (s : LogicState) : LogicState × List Action :=
  if s.enabled then
    let r1 := start_timer cfg s
    let r2 := move cfg r1.1
    (r2.1, r1.2 ++ r2.2)
  else (s, [])

/-- Embeds the `for axis in self._axis` body of `setup_axis`: per truthy
axis entry, a `frequency` then a `voltage` hardware call. -/
def setup_axisGo (cfg : Config) : List Axis → List Action
  | [] => []
  | none :: rest => setup_axisGo cfg rest
  | some a :: rest =>
    if a.isEmpty then setup_axisGo cfg rest
    else Action.frequency a cfg.hardware_frequency
          :: Action.voltage a cfg.hardware_voltage :: setup_axisGo cfg rest

/-- Embeds `setup_axis`: configure frequency and voltage of every truthy
configured axis. -/
def setup_axis (cfg : Config) : List Action := setup_axisGo cfg cfg.axis

/-- Embeds `on_activate`: after connecting the hardware and creating the
single-shot timer, run `setup_axis()` and then `startLoop()`. -/
def on_activate (cfg : Config) : LogicState × List Action :=
  let r := startLoop cfg initState
  (r.1, setup_axis cfg ++ r.2)

/-- An external stimulus of the module: the public `startLoop`/`stopLoop`
entry points, the timer firing (which invokes `loop`), or a write of a
pending value by the external input source (`logic._last_value[i] = v`; the
input-producing logic is not among these sources, and no write-time check
exists in them — the range check sits in `move_axis`). -/
inductive Event where
  | startLoop
  | stopLoop
  | tick
  | setCommand (i : ℕ) (v : ℚ)
  deriving DecidableEq

/-- One step of the module under an external stimulus. -/
def step (cfg : Config) (s : LogicState) : Event → LogicState × List Action
  | .startLoop => startLoop cfg s
  | .stopLoop => stopLoop s
  | .tick => loop cfg s
  | .setCommand i v => ({ s with last_value := s.last_value.set i v }, [])

/-- Fold a list of external stimuli, concatenating the emitted actions. -/
def run (cfg : Config) : LogicState → List Event → LogicState × List Action
  | s, [] => (s, [])
  | s, e :: es =>
    let r1 := step cfg s e
    let r2 := run cfg r1.1 es
    (r2.1, r1.2 ++ r2.2)

/-- The axis name a hardware call addresses, if it is a per-axis call. -/
def Action.axisOf : Action → Option String
  | .frequency a _ => some a
  | .voltage a _ => some a
  | .steps a _ => some a
  | _ => none

/-- The `steps` hardware calls addressed to axis `a` within an action list
(the `move_steps` calls of the specification). -/
def stepsFor (a : String) (acts : List Action) : List Action :=
  acts.filter fun act => match act with
    | .steps b _ => b == a
    | _ => false

/-- The thumbstick and trigger fields of an `XINPUT_GAMEPAD` ctypes
structure: `wButtons` and the triggers are unsigned, the four thumbstick
values are signed 16-bit (`ctypes.c_short`, range `[-32768, 32767]`). -/
structure XINPUT_GAMEPAD where
  wButtons : ℕ
  bLeftTrigger : ℕ
  bRightTrigger : ℕ
  sThumbLX : ℤ
  sThumbLY : ℤ
  sThumbRX : ℤ
  sThumbRY : ℤ
  deriving DecidableEq

/-- The `scales_maximum['joystick']` constant of `JoytickXInput.get_state`. -/
def joystick_scale_maximum : ℚ := 32767

/-- The `scales_maximum['trigger']` constant of `JoytickXInput.get_state`. -/
def trigger_scale_maximum : ℚ := 255

/-- The `'axis'` sub-dictionary returned by `JoytickXInput.get_state`. -/
structure JoystickAxes where
  left_vertical : ℚ
  left_horizontal : ℚ
  right_vertical : ℚ
  right_horizontal : ℚ
  left_trigger : ℚ
  right_trigger : ℚ
  deriving DecidableEq

/-- Embeds the `'axis'` part of `JoytickXInput.get_state`: each raw
thumbstick value is divided by 32767.0 and each trigger by 255.0, with the
same (as written) field-to-key pairing as the source. -/
def get_state_axis (g : XINPUT_GAMEPAD) : JoystickAxes :=
  { left_vertical := (g.sThumbLX : ℚ) / joystick_scale_maximum
    left_horizontal := (g.sThumbLY : ℚ) / joystick_scale_maximum
    right_vertical := (g.sThumbRY : ℚ) / joystick_scale_maximum
    right_horizontal := (g.sThumbRX : ℚ) / joystick_scale_maximum
    left_trigger := (g.bLeftTrigger : ℚ) / trigger_scale_maximum
    right_trigger := (g.bRightTrigger : ℚ) / trigger_scale_maximum }

/-- The default configuration: `ui_frequency` 10, `hardware_frequency`
1000, `hardware_voltage` 40, axes `('x', 'y', None)`. -/
def cfg0 : Config := ⟨10, 1000, 40, [some "x", some "y", none]⟩

/-- A running state with all pending values zero. -/
def s0 : LogicState := ⟨[0, 0, 0], true, true⟩

/-- A stopped state with all pending values zero. -/
def sIdle : LogicState := ⟨[0, 0, 0], false, false⟩

/-- A running state in which axis `x` has pending command `0.5`. -/
def sHalf : LogicState := ⟨[1/2, 0, 0], true, true⟩

/-- A running state in which axis `x` has pending command `0.004`. -/
def sSmall : LogicState := ⟨[1/250, 0, 0], true, true⟩

/-- A gamepad snapshot whose left thumbstick X is at the most negative raw
value `-32768`. -/
def g0 : XINPUT_GAMEPAD := ⟨0, 0, 0, -32768, 0, 0, 0⟩

end AnalogSteppers

namespace AnalogSteppers

theorem isEmpty_x : ("x" : String).isEmpty = false := rfl

theorem isEmpty_y : ("y" : String).isEmpty = false := rfl

theorem x_ne_y : ("x" : String) ≠ "y" := by decide

theorem y_ne_x : ("y" : String) ≠ "x" := by decide

theorem getQ_set_self (l : List ℚ) (v : ℚ) : ∀ i, i < l.length → getQ (l.set i v) i = v := by
  induction l with
  | nil => intro i h; simp at h
  | cons x l ih =>
    intro i h
    cases i with
    | zero => rfl
    | succ n => exact ih n (by simpa using h)

theorem getQ_set_ne (v : ℚ) :
    ∀ (l : List ℚ) (i j : ℕ), i ≠ j → getQ (l.set j v) i = getQ l i
  | [], _, _, _ => rfl
  | _ :: _, 0, 0, h => absurd rfl h
  | _ :: _, 0, _+1, _ => rfl
  | _ :: _, _+1, 0, _ => rfl
  | _ :: l, i+1, j+1, h => getQ_set_ne v l i j fun e => h (congrArg Nat.succ e)

theorem getQ_set_zero : ∀ (l : List ℚ) (i j : ℕ), getQ l i = 0 → getQ (l.set j 0) i = 0
  | [], _, _, h => h
  | _ :: _, 0, 0, _ => rfl
  | _ :: _, 0, _+1, h => h
  | _ :: _, _+1, 0, h => h
  | _ :: l, i+1, j+1, h => getQ_set_zero l i j h

theorem listIndex_lt_length : ∀ (l : List Axis) (x : Axis), x ∈ l → listIndex x l < l.length := by
  intro l
  induction l with
  | nil => intro x h; simp at h
  | cons y l ih =>
    intro x h
    by_cases e : y = x
    · simp [listIndex, e]
    · have hx : x ∈ l := (List.mem_cons.mp h).resolve_left fun h1 => e h1.symm
      have := ih x hx
      simp only [listIndex, if_neg e, List.length_cons]
      omega

theorem listIndex_of_not_mem : ∀ (l : List Axis) (x : Axis), x ∉ l → listIndex x l = l.length := by
  intro l
  induction l with
  | nil => intro x _; rfl
  | cons y l ih =>
    intro x h
    have e : y ≠ x := fun e1 => h (e1 ▸ List.mem_cons_self y l)
    have hx : x ∉ l := fun h1 => h (List.mem_cons_of_mem y h1)
    simp only [listIndex, if_neg e, List.length_cons, ih x hx]

theorem get?_listIndex : ∀ (l : List Axis) (x : Axis), x ∈ l → l.get? (listIndex x l) = some x := by
  intro l
  induction l with
  | nil => intro x h; simp at h
  | cons y l ih =>
    intro x h
    by_cases e : y = x
    · simp [listIndex, e]
    · have hx : x ∈ l := (List.mem_cons.mp h).resolve_left fun h1 => e h1.symm
      simpa [listIndex, if_neg e] using ih x hx

theorem listIndex_ne_of_ne (l : List Axis) (x y : Axis) (hx : x ∈ l) (hxy : y ≠ x) :
    listIndex y l ≠ listIndex x l := by
  intro e
  by_cases hy : y ∈ l
  · have h1 := get?_listIndex l x hx
    have h2 := get?_listIndex l y hy
    rw [e, h1] at h2
    exact hxy (Option.some.inj h2.symm)
  · have h3 := listIndex_of_not_mem l y hy
    have h4 := listIndex_lt_length l x hx
    omega

theorem move_axis_mem (cfg : Config) (a : String) (v : ℚ) (act : Action)
    (h : act ∈ move_axis cfg a v) :
    act = Action.logError v
      ∨ act = Action.steps a (truncQ (cfg.hardware_frequency / cfg.ui_frequency * v)) := by
  unfold move_axis at h
  by_cases h0 : v = 0
  · rw [if_pos h0] at h
    simp at h
  · rw [if_neg h0] at h
    by_cases hr : v < -1 ∨ v > 1
    · rw [if_pos hr] at h
      simpa using h
    · rw [if_neg hr] at h
      simp at h
      exact Or.inr h

theorem stepsFor_append (a : String) (l1 l2 : List Action) :
    stepsFor a (l1 ++ l2) = stepsFor a l1 ++ stepsFor a l2 :=
  List.filter_append _ _

theorem stepsFor_move_axis_self (cfg : Config) (a : String) (v : ℚ) :
    stepsFor a (move_axis cfg a v)
      = if v = 0 then []
        else [Action.steps a (truncQ (cfg.hardware_frequency / cfg.ui_frequency * v))] := by
  unfold move_axis stepsFor
  by_cases h0 : v = 0
  · rw [if_pos h0, if_pos h0]
    rfl
  · have hb : (a == a) = true := beq_self_eq_true a
    rw [if_neg h0, if_neg h0]
    by_cases hr : v < -1 ∨ v > 1
    · rw [if_pos hr]
      simp [List.filter, hb]
    · rw [if_neg hr]
      simp [List.filter, hb]

theorem stepsFor_move_axis_ne (cfg : Config) (a b : String) (v : ℚ) (hba : b ≠ a) :
    stepsFor a (move_axis cfg b v) = [] := by
  unfold move_axis stepsFor
  by_cases h0 : v = 0
  · rw [if_pos h0]
    rfl
  · have hb : (b == a) = false := beq_eq_false_iff_ne.mpr hba
    rw [if_neg h0]
    by_cases hr : v < -1 ∨ v > 1
    · rw [if_pos hr]
      simp [List.filter, hb]
    · rw [if_neg hr]
      simp [List.filter, hb]

theorem moveGo_length (cfg : Config) :
    ∀ (l : List Axis) (s : LogicState),
      (moveGo cfg l s).1.last_value.length = s.last_value.length := by
  intro l
  induction l with
  | nil => intro s; rfl
  | cons ax rest ih =>
    intro s
    cases ax with
    | none => exact ih s
    | some a =>
      by_cases he : a.isEmpty
      · simpa [moveGo, he] using ih s
      · have h1 := ih { s with last_value := s.last_value.set (listIndex (some a) cfg.axis) 0 }
        simpa [moveGo, he, List.length_set] using h1

theorem moveGo_zero_stable (cfg : Config) :
    ∀ (l : List Axis) (s : LogicState) (i : ℕ), getQ s.last_value i = 0 →
      getQ (moveGo cfg l s).1.last_value i = 0 := by
  intro l
  induction l with
  | nil => intro s i h; exact h
  | cons ax rest ih =>
    intro s i h
    cases ax with
    | none => exact ih s i h
    | some a =>
      by_cases he : a.isEmpty
      · simpa [moveGo, he] using ih s i h
      · have h1 := ih { s with last_value := s.last_value.set (listIndex (some a) cfg.axis) 0 }
          i (getQ_set_zero _ _ _ h)
        simpa [moveGo, he] using h1

theorem moveGo_mem_shape (cfg : Config) :
    ∀ (l : List Axis) (s : LogicState) (act : Action), act ∈ (moveGo cfg l s).2 →
      (∃ w, act = Action.logError w)
        ∨ ∃ b k, act = Action.steps b k ∧ some b ∈ l ∧ b.isEmpty = false := by
  intro l
  induction l with
  | nil => intro s act h; simp [moveGo] at h
  | cons ax rest ih =>
    intro s act h
    cases ax with
    | none =>
      rcases ih s act h with h1 | ⟨b, k, e, hb, hbe⟩
      · exact Or.inl h1
      · exact Or.inr ⟨b, k, e, List.mem_cons_of_mem _ hb, hbe⟩
    | some a =>
      by_cases he : a.isEmpty
      · rw [show moveGo cfg (some a :: rest) s = moveGo cfg rest s by simp [moveGo, he]] at h
        rcases ih s act h with h1 | ⟨b, k, e, hb, hbe⟩
        · exact Or.inl h1
        · exact Or.inr ⟨b, k, e, List.mem_cons_of_mem _ hb, hbe⟩
      · rw [show (moveGo cfg (some a :: rest) s).2
              = move_axis cfg a (getQ s.last_value (listIndex (some a) cfg.axis))
                ++ (moveGo cfg rest
                      { s with last_value :=
                          s.last_value.set (listIndex (some a) cfg.axis) 0 }).2 by
            simp [moveGo, he]] at h
        rcases List.mem_append.mp h with h1 | h1
        · rcases move_axis_mem cfg a _ act h1 with e | e
          · exact Or.inl ⟨_, e⟩
          · exact Or.inr ⟨a, _, e, List.mem_cons_self _ _,
              Bool.not_eq_true _ ▸ eq_false_of_ne_true he⟩
        · rcases ih _ act h1 with h2 | ⟨b, k, e, hb, hbe⟩
          · exact Or.inl h2
          · exact Or.inr ⟨b, k, e, List.mem_cons_of_mem _ hb, hbe⟩

theorem moveGo_consumed_quiet (cfg : Config) (a : String) (i : ℕ)
    (hidx : listIndex (some a) cfg.axis = i) :
    ∀ (l : List Axis) (s : LogicState), getQ s.last_value i = 0 →
      stepsFor a (moveGo cfg l s).2 = [] := by
  intro l
  induction l with
  | nil => intro s _; rfl
  | cons ax rest ih =>
    intro s h
    cases ax with
    | none => exact ih s h
    | some b =>
      by_cases he : b.isEmpty
      · simpa [moveGo, he] using ih s h
      · have hrest := ih { s with last_value := s.last_value.set (listIndex (some b) cfg.axis) 0 } (getQ_set_zero _ _ _ h)
        by_cases hba : b = a
        · subst hba
          have hval : getQ s.last_value (listIndex (some b) cfg.axis) = 0 := by
            rw [hidx]; exact h
          simp only [moveGo, he, Bool.false_eq_true, if_false, stepsFor_append, hrest,
            List.append_nil, hval, stepsFor_move_axis_self, eq_self_iff_true, if_true]
        · simp only [moveGo, he, Bool.false_eq_true, if_false, stepsFor_append, hrest,
            List.append_nil, stepsFor_move_axis_ne cfg a b _ hba]

theorem moveGo_consume (cfg : Config) {a : String} {i : ℕ} {v : ℚ}
    (ha : a.isEmpty = false) (hmem : some a ∈ cfg.axis)
    (hidx : listIndex (some a) cfg.axis = i) (hv : v ≠ 0) :
    ∀ (l : List Axis) (s : LogicState), some a ∈ l →
      i < s.last_value.length → getQ s.last_value i = v →
      stepsFor a (moveGo cfg l s).2
          = [Action.steps a (truncQ (cfg.hardware_frequency / cfg.ui_frequency * v))]
        ∧ getQ (moveGo cfg l s).1.last_value i = 0 := by
  intro l
  induction l with
  | nil => intro s hl _ _; simp at hl
  | cons ax rest ih =>
    intro s hl hlen hval
    cases ax with
    | none =>
      have hl1 : some a ∈ rest := by
        rcases List.mem_cons.mp hl with h1 | h1
        · exact absurd h1 (by simp)
        · exact h1
      exact ih s hl1 hlen hval
    | some b =>
      by_cases he : b.isEmpty
      · have hba : b ≠ a := fun e => by rw [e, ha] at he; exact Bool.false_ne_true he
        have hl1 : some a ∈ rest := by
          rcases List.mem_cons.mp hl with h1 | h1
          · exact absurd (Option.some.inj h1) (Ne.symm hba)
          · exact h1
        simpa [moveGo, he] using ih s hl1 hlen hval
      · by_cases hba : b = a
        · subst hba
          have hval2 : getQ s.last_value (listIndex (some b) cfg.axis) = v := by
            rw [hidx]; exact hval
          have hzero : getQ (s.last_value.set (listIndex (some b) cfg.axis) 0)
              (listIndex (some b) cfg.axis) = 0 := by
            rw [hidx] at hval2 ⊢
            exact getQ_set_self s.last_value 0 i hlen
          have hquiet := moveGo_consumed_quiet cfg b i hidx rest
            { s with last_value := s.last_value.set (listIndex (some b) cfg.axis) 0 }
            (by rw [hidx] at hzero ⊢; exact hzero)
          have hstable := moveGo_zero_stable cfg rest
            { s with last_value := s.last_value.set (listIndex (some b) cfg.axis) 0 } i
            (by rw [hidx] at hzero ⊢; exact hzero)
          constructor
          · simp only [moveGo, he, Bool.false_eq_true, if_false, stepsFor_append, hquiet,
              List.append_nil, hval2, stepsFor_move_axis_self, if_neg hv]
          · simpa [moveGo, he] using hstable
        · have hji : listIndex (some b) cfg.axis ≠ i := by
            rw [← hidx]
            exact listIndex_ne_of_ne cfg.axis (some a) (some b) hmem
              fun e => hba (Option.some.inj e)
          have hl1 : some a ∈ rest := by
            rcases List.mem_cons.mp hl with h1 | h1
            · exact absurd (Option.some.inj h1) (Ne.symm hba)
            · exact h1
          have hlen1 : i < (s.last_value.set (listIndex (some b) cfg.axis) 0).length := by
            simpa [List.length_set] using hlen
          have hval1 : getQ (s.last_value.set (listIndex (some b) cfg.axis) 0) i = v := by
            rw [getQ_set_ne 0 s.last_value i _ (Ne.symm hji)]
            exact hval
          have hrest := ih { s with last_value := s.last_value.set (listIndex (some b) cfg.axis) 0 } hl1 hlen1 hval1
          constructor
          · simp only [moveGo, he, Bool.false_eq_true, if_false, stepsFor_append,
              stepsFor_move_axis_ne cfg a b _ hba, List.nil_append, hrest.1]
          · simpa [moveGo, he] using hrest.2

theorem run_nil (cfg : Config) (s : LogicState) : run cfg s [] = (s, []) := rfl

theorem run_cons (cfg : Config) (s : LogicState) (e : Event) (es : List Event) :
    run cfg s (e :: es)
      = ((run cfg (step cfg s e).1 es).1,
          (step cfg s e).2 ++ (run cfg (step cfg s e).1 es).2) := rfl

theorem stepsFor_cons_timerStart (a : String) (n : ℤ) (l : List Action) :
    stepsFor a (Action.timerStart n :: l) = stepsFor a l := rfl

theorem loop_disabled (cfg : Config) (t : LogicState) (h : t.enabled = false) :
    loop cfg t = (t, []) := by
  simp [loop, h]

theorem loop_enabled_fst (cfg : Config) (t : LogicState) (h : t.enabled = true) :
    (loop cfg t).1 = (move cfg { t with timerArmed := true }).1 := by
  simp [loop, h, start_timer]

theorem loop_enabled_snd (cfg : Config) (t : LogicState) (h : t.enabled = true) :
    (loop cfg t).2
      = Action.timerStart (timer_interval cfg)
          :: (move cfg { t with timerArmed := true }).2 := by
  simp [loop, h, start_timer]

theorem run_preserves_disabled (cfg : Config) :
    ∀ (es : List Event) (s : LogicState), s.enabled = false → Event.startLoop ∉ es →
      (run cfg s es).1.enabled = false
        ∧ ∀ b k, Action.steps b k ∉ (run cfg s es).2 := by
  intro es
  induction es with
  | nil =>
    intro s hs _
    exact ⟨hs, fun b k h => by simp [run] at h⟩
  | cons e rest ih =>
    intro s hs hn
    have hn1 : Event.startLoop ∉ rest := fun h1 => hn (List.mem_cons_of_mem _ h1)
    cases e with
    | startLoop => exact absurd (List.mem_cons_self _ _) hn
    | stopLoop =>
      have h1 := ih (stopLoop s).1 rfl hn1
      refine ⟨h1.1, fun b k h => ?_⟩
      rw [run_cons] at h
      rcases List.mem_append.mp h with h2 | h2
      · simp [step, stopLoop] at h2
      · exact h1.2 b k h2
    | tick =>
      have hl : step cfg s Event.tick = (s, []) := by simp [step, loop, hs]
      have h1 := ih s hs hn1
      refine ⟨?_, fun b k h => ?_⟩
      · rw [run_cons, hl]
        exact h1.1
      · rw [run_cons, hl] at h
        rcases List.mem_append.mp h with h2 | h2
        · simp at h2
        · exact h1.2 b k h2
    | setCommand i v =>
      have h1 := ih { s with last_value := s.last_value.set i v } hs hn1
      refine ⟨h1.1, fun b k h => ?_⟩
      rw [run_cons] at h
      rcases List.mem_append.mp h with h2 | h2
      · simp [step] at h2
      · exact h1.2 b k h2

/-- C4, counterexample: with the default configuration, two consecutive
`stopLoop` calls emit TWO hardware stop-all commands, not exactly one as
the claim states. -/
theorem C4_counterexample_two_device_stops :
    (run cfg0 s0 [Event.stopLoop, Event.stopLoop]).2.count Action.stop = 2
      ∧ (run cfg0 s0 [Event.stopLoop, Event.stopLoop]).2.count Action.stop ≠ 1 := by
  constructor
  · rfl
  · intro h
    rw [show (run cfg0 s0 [Event.stopLoop, Event.stopLoop]).2.count Action.stop = 2 from rfl] at h
    exact absurd h (by norm_num)

/-- C4, amended: `stopLoop` is idempotent on the state — a second call
leaves the state of the first call unchanged and `enabled` stays false —
but each call issues its own hardware stop-all, so two calls in a row
produce two `stop` device commands, not one. -/
theorem C4_stop_state_idempotent_two_device_stops (s : LogicState) :
    (stopLoop (stopLoop s).1).1 = (stopLoop s).1
      ∧ (stopLoop s).1.enabled = false
      ∧ ((stopLoop s).2 ++ (stopLoop (stopLoop s).1).2).count Action.stop = 2 :=
  ⟨rfl, rfl, rfl⟩

/-- C5: after `stopLoop`, as long as no `startLoop` occurs, no `steps`
(move_steps) hardware call is emitted by any sequence of events —
including writes of new pending commands and timer ticks — and a tick
executed on a disabled state does nothing and does not re-arm the timer. -/
theorem C5_no_steps_after_stop (cfg : Config) (s t : LogicState) (es : List Event)
    (hes : Event.startLoop ∉ es) (ht : t.enabled = false) :
    (∀ b k, Action.steps b k ∉ (run cfg (stopLoop s).1 es).2)
      ∧ loop cfg t = (t, []) :=
  ⟨(run_preserves_disabled cfg es (stopLoop s).1 rfl hes).2, loop_disabled cfg t ht⟩

/-- C5, witness at a concrete input: after stopping the default loop, a
pending-command write followed by a tick emits no steps call for axis x,
and a tick on a disabled idle state is a no-op. -/
theorem C5_witness :
    Action.steps "x" 50
        ∉ (run cfg0 (stopLoop s0).1 [Event.setCommand 0 (1/2), Event.tick]).2
      ∧ loop cfg0 sIdle = (sIdle, []) := by
  have h := C5_no_steps_after_stop cfg0 s0 sIdle [Event.setCommand 0 (1/2), Event.tick]
    (by decide) rfl
  exact ⟨h.1 "x" 50, h.2⟩

/-- C7: the per-axis read-and-reset of the pending values in `move` is not
performed under any lock — the `threadlock` Mutex created in `__init__` is
never acquired, so no tick ever emits a lock acquisition or release. -/
theorem C7_move_never_locks (cfg : Config) (s : LogicState) :
    Action.lockAcquire ∉ (move cfg s).2 ∧ Action.lockRelease ∉ (move cfg s).2 := by
  constructor <;> intro h <;>
    rcases moveGo_mem_shape cfg cfg.axis s _ h with ⟨w, e⟩ | ⟨b, k, e, hb, hbe⟩ <;>
    exact Action.noConfusion e

/-- C9: `on_activate` configures the active axes (frequency then voltage
per axis) and then unconditionally starts the loop: it leaves
`enabled = true` with the timer armed, and its action trace is the axis
setup followed by a timer start — no external `startLoop` call is needed
for ticks to begin. -/
theorem C9_activation_starts_loop (cfg : Config) :
    (on_activate cfg).1.enabled = true
      ∧ (on_activate cfg).1.timerArmed = true
      ∧ (on_activate cfg).2
          = setup_axis cfg ++ [Action.timerStart (timer_interval cfg)] :=
  ⟨rfl, rfl, rfl⟩

/-- C1, counterexample: the pending value `0.0` lies in `[-1.0, 1.0]`, yet
writing it and ticking produces NO steps call for the axis (the claim
demands exactly one call, with step count `trunc(100 * 0) = 0`). -/
theorem C1_counterexample_zero_value :
    stepsFor "x" (run cfg0 s0 [Event.setCommand 0 0, Event.tick]).2 = []
      ∧ stepsFor "x" (run cfg0 s0 [Event.setCommand 0 0, Event.tick]).2
          ≠ [Action.steps "x" (truncQ (cfg0.hardware_frequency / cfg0.ui_frequency * 0))] := by
  have h : stepsFor "x" (run cfg0 s0 [Event.setCommand 0 0, Event.tick]).2 = [] := by
    norm_num [run, step, loop, start_timer, timer_interval, move, moveGo, move_axis,
      listIndex, getQ, truncQ, cfg0, s0, isEmpty_x, isEmpty_y, x_ne_y, y_ne_x, stepsFor]
  exact ⟨h, by rw [h]; simp⟩

/-- C1, amended: for every NONZERO value v in `[-1.0, 1.0]` and every
configured axis, writing v as the axis's pending command and executing one
tick emits exactly one steps call for that axis, with step count
`trunc(hardware_frequency / ui_frequency * v)`, and resets the pending
value to 0; for v = 0.0 the tick emits no steps call at all (see the
counterexample), while still leaving the pending value 0. -/
theorem C1_tick_sends_trunc_steps_and_resets
    (cfg : Config) (s : LogicState) (a : String) (i : ℕ) (v : ℚ)
    (ha : a.isEmpty = false) (hmem : some a ∈ cfg.axis)
    (hidx : listIndex (some a) cfg.axis = i) (hen : s.enabled = true)
    (hlen : i < s.last_value.length) (hv0 : v ≠ 0) (hlo : -1 ≤ v) (hhi : v ≤ 1) :
    stepsFor a (run cfg s [Event.setCommand i v, Event.tick]).2
        = [Action.steps a (truncQ (cfg.hardware_frequency / cfg.ui_frequency * v))]
      ∧ getQ (run cfg s [Event.setCommand i v, Event.tick]).1.last_value i = 0 := by
  have hlen1 : i < (s.last_value.set i v).length := by simpa [List.length_set] using hlen
  have hval1 : getQ (s.last_value.set i v) i = v := getQ_set_self s.last_value v i hlen
  have key := moveGo_consume cfg ha hmem hidx hv0 cfg.axis
    { s with last_value := s.last_value.set i v, timerArmed := true } hmem hlen1 hval1
  have hen1 : ({ s with last_value := s.last_value.set i v } : LogicState).enabled = true := hen
  have htr2 : (run cfg s [Event.setCommand i v, Event.tick]).2
      = (loop cfg { s with last_value := s.last_value.set i v }).2 := by
    simp [run, step]
  have htr1 : (run cfg s [Event.setCommand i v, Event.tick]).1
      = (loop cfg { s with last_value := s.last_value.set i v }).1 := by
    simp [run, step]
  constructor
  · rw [htr2, loop_enabled_snd cfg _ hen1, stepsFor_cons_timerStart]
    exact key.1
  · rw [htr1, loop_enabled_fst cfg _ hen1]
    exact key.2

/-- C1, witness at the claim's concrete scenario: hardware frequency 1000,
ui frequency 10, command 0.5 on axis x gives one steps call of 50 and a
cleared pending value. -/
theorem C1_witness :
    stepsFor "x" (run cfg0 s0 [Event.setCommand 0 (1/2), Event.tick]).2
        = [Action.steps "x" (truncQ (cfg0.hardware_frequency / cfg0.ui_frequency * (1/2)))]
      ∧ getQ (run cfg0 s0 [Event.setCommand 0 (1/2), Event.tick]).1.last_value 0 = 0 :=
  C1_tick_sends_trunc_steps_and_resets cfg0 s0 "x" 0 (1/2) rfl (by decide) (by decide) rfl
    (by decide) (by norm_num) (by norm_num) (by norm_num)

/-- C2, counterexample: for the out-of-range value 1.5 the code logs an
error but does NOT discard the command — the derived steps call
`steps('x', trunc(100 * 1.5)) = steps('x', 150)` is still sent, contrary
to the claim that no step command derived from v reaches the device. -/
theorem C2_counterexample_out_of_range_still_sent :
    move_axis cfg0 "x" (3/2) = [Action.logError (3/2), Action.steps "x" 150]
      ∧ Action.steps "x" 150 ∈ move_axis cfg0 "x" (3/2) := by
  have h : move_axis cfg0 "x" (3/2) = [Action.logError (3/2), Action.steps "x" 150] := by
    norm_num [move_axis, truncQ, cfg0]
  exact ⟨h, by rw [h]; simp⟩

/-- C2, amended: a pending value outside `[-1.0, 1.0]`, when consumed,
produces a logged error and no exception and the loop continues, but the
value is not discarded: the error branch falls through, so the steps call
`trunc(hardware_frequency / ui_frequency * v)` is still sent to the
device (and the pending value is reset like any consumed value). -/
theorem C2_out_of_range_logged_then_sent (cfg : Config) (a : String) (v : ℚ)
    (hout : v < -1 ∨ v > 1) :
    move_axis cfg a v
      = [Action.logError v,
          Action.steps a (truncQ (cfg.hardware_frequency / cfg.ui_frequency * v))] := by
  have hv : v ≠ 0 := by
    rcases hout with h | h <;> intro e <;> rw [e] at h <;> norm_num at h
  unfold move_axis
  rw [if_neg hv, if_pos hout]
  rfl

/-- C2, witness at the concrete out-of-range value 1.5. -/
theorem C2_witness :
    move_axis cfg0 "x" (3/2)
      = [Action.logError (3/2),
          Action.steps "x" (truncQ (cfg0.hardware_frequency / cfg0.ui_frequency * (3/2)))] :=
  C2_out_of_range_logged_then_sent cfg0 "x" (3/2) (Or.inr (by norm_num))

/-- C3, counterexample: with hardware frequency 1000 and ui frequency 10,
the command 0.004 truncates to 0 steps, yet the tick still emits a
`steps('x', 0)` device call — the zero-skip tests the analog VALUE, not
the computed step count. -/
theorem C3_counterexample_zero_steps_still_sent :
    stepsFor "x" (run cfg0 s0 [Event.setCommand 0 (1/250), Event.tick]).2
        = [Action.steps "x" 0]
      ∧ stepsFor "x" (run cfg0 s0 [Event.setCommand 0 (1/250), Event.tick]).2 ≠ [] := by
  have h : stepsFor "x" (run cfg0 s0 [Event.setCommand 0 (1/250), Event.tick]).2
      = [Action.steps "x" 0] := by
    norm_num [run, step, loop, start_timer, timer_interval, move, moveGo, move_axis,
      listIndex, getQ, truncQ, cfg0, s0, isEmpty_x, isEmpty_y, x_ne_y, y_ne_x, stepsFor]
  exact ⟨h, by rw [h]; simp⟩

/-- C3, amended: a tick skips the device call for an axis exactly when the
pending value is exactly 0; any nonzero pending value produces a steps
call, even when the computed step count truncates to 0 (such as 0.004 at
the default rates). -/
theorem C3_skip_only_on_exact_zero
    (cfg : Config) (s : LogicState) (a : String) (i : ℕ) (v : ℚ)
    (ha : a.isEmpty = false) (hmem : some a ∈ cfg.axis)
    (hidx : listIndex (some a) cfg.axis = i) (hen : s.enabled = true)
    (hlen : i < s.last_value.length) (hval : getQ s.last_value i = v) :
    (v = 0 → stepsFor a (loop cfg s).2 = [])
      ∧ (v ≠ 0 → stepsFor a (loop cfg s).2
          = [Action.steps a (truncQ (cfg.hardware_frequency / cfg.ui_frequency * v))]) := by
  constructor
  · intro h0
    rw [loop_enabled_snd cfg s hen, stepsFor_cons_timerStart]
    exact moveGo_consumed_quiet cfg a i hidx cfg.axis { s with timerArmed := true }
      (hval.trans h0)
  · intro hv
    rw [loop_enabled_snd cfg s hen, stepsFor_cons_timerStart]
    exact (moveGo_consume cfg ha hmem hidx hv cfg.axis { s with timerArmed := true }
      hmem hlen hval).1

/-- C3, witness: at the default rates a pending 0.004 on axis x yields one
`steps('x', 0)` call on the tick. -/
theorem C3_witness :
    stepsFor "x" (loop cfg0 sSmall).2
      = [Action.steps "x" (truncQ (cfg0.hardware_frequency / cfg0.ui_frequency * (1/250)))] :=
  (C3_skip_only_on_exact_zero cfg0 sSmall "x" 0 (1/250) rfl (by decide) (by decide) rfl
    (by decide) rfl).2 (by norm_num)

/-- C6, counterexample: on an enabled tick with a pending command, the
emitted trace begins with the timer re-arm and the dispatch work follows
it — the trace does not end with the re-arm, so the timer is not re-armed
at the end of the tick as the claim states. -/
theorem C6_counterexample_rearm_first :
    (loop cfg0 sHalf).2
        = [Action.timerStart (timer_interval cfg0), Action.steps "x" 50]
      ∧ (loop cfg0 sHalf).2.getLast?
          ≠ some (Action.timerStart (timer_interval cfg0)) := by
  have h : (loop cfg0 sHalf).2
      = [Action.timerStart (timer_interval cfg0), Action.steps "x" 50] := by
    norm_num [loop, start_timer, timer_interval, move, moveGo, move_axis,
      listIndex, getQ, truncQ, cfg0, sHalf, isEmpty_x, isEmpty_y, x_ne_y, y_ne_x]
  refine ⟨h, ?_⟩
  rw [h]
  simp

/-- C6, amended: within every enabled tick the single-shot timer is
re-armed FIRST — the trace is the timer start followed by the per-axis
sampling and dispatch work, and that work emits no further timer start. -/
theorem C6_rearm_at_start_of_tick (cfg : Config) (s : LogicState) (hen : s.enabled = true) :
    (loop cfg s).2
        = Action.timerStart (timer_interval cfg)
            :: (move cfg { s with timerArmed := true }).2
      ∧ ∀ n, Action.timerStart n ∉ (move cfg { s with timerArmed := true }).2 := by
  refine ⟨loop_enabled_snd cfg s hen, fun n h => ?_⟩
  rcases moveGo_mem_shape cfg cfg.axis _ _ h with ⟨w, e⟩ | ⟨b, k, e, hb, hbe⟩ <;>
    exact Action.noConfusion e

/-- C6, witness at a concrete enabled state with a pending command. -/
theorem C6_witness :
    (loop cfg0 sHalf).2
        = Action.timerStart (timer_interval cfg0)
            :: (move cfg0 { sHalf with timerArmed := true }).2
      ∧ Action.timerStart 100 ∉ (move cfg0 { sHalf with timerArmed := true }).2 := by
  have h := C6_rearm_at_start_of_tick cfg0 sHalf rfl
  exact ⟨h.1, h.2 100⟩

theorem setup_axisGo_mem (cfg : Config) :
    ∀ (l : List Axis) (act : Action), act ∈ setup_axisGo cfg l →
      ∃ b, (act = Action.frequency b cfg.hardware_frequency
              ∨ act = Action.voltage b cfg.hardware_voltage)
          ∧ some b ∈ l ∧ b.isEmpty = false := by
  intro l
  induction l with
  | nil => intro act h; simp [setup_axisGo] at h
  | cons ax rest ih =>
    intro act h
    cases ax with
    | none =>
      rcases ih act h with ⟨b, e, hb, hbe⟩
      exact ⟨b, e, List.mem_cons_of_mem _ hb, hbe⟩
    | some a =>
      by_cases he : a.isEmpty
      · rw [show setup_axisGo cfg (some a :: rest) = setup_axisGo cfg rest from by
          simp [setup_axisGo, he]] at h
        rcases ih act h with ⟨b, e, hb, hbe⟩
        exact ⟨b, e, List.mem_cons_of_mem _ hb, hbe⟩
      · rw [show setup_axisGo cfg (some a :: rest)
              = Action.frequency a cfg.hardware_frequency
                :: Action.voltage a cfg.hardware_voltage :: setup_axisGo cfg rest from by
          simp [setup_axisGo, he]] at h
        rcases List.mem_cons.mp h with e1 | h2
        · exact ⟨a, Or.inl e1, List.mem_cons_self _ _, by simpa using he⟩
        · rcases List.mem_cons.mp h2 with e1 | h3
          · exact ⟨a, Or.inr e1, List.mem_cons_self _ _, by simpa using he⟩
          · rcases ih act h3 with ⟨b, e, hb, hbe⟩
            exact ⟨b, e, List.mem_cons_of_mem _ hb, hbe⟩

theorem run_axis_calls (cfg : Config) :
    ∀ (es : List Event) (s : LogicState) (act : Action) (b : String),
      act ∈ (run cfg s es).2 → act.axisOf = some b →
      some b ∈ cfg.axis ∧ b.isEmpty = false := by
  intro es
  induction es with
  | nil => intro s act b h _; simp [run] at h
  | cons e rest ih =>
    intro s act b h hax
    rw [run_cons] at h
    rcases List.mem_append.mp h with h1 | h1
    · cases e with
      | startLoop =>
        have e1 : act = Action.timerStart (timer_interval cfg) := by
          simpa [step, startLoop, start_timer] using h1
        rw [e1] at hax
        simp [Action.axisOf] at hax
      | stopLoop =>
        have h2 : act = Action.timerStop ∨ act = Action.stop := by
          simpa [step, stopLoop] using h1
        rcases h2 with e1 | e1 <;> rw [e1] at hax <;> simp [Action.axisOf] at hax
      | tick =>
        by_cases hs : s.enabled = true
        · rw [show (step cfg s Event.tick).2
                = Action.timerStart (timer_interval cfg)
                  :: (move cfg { s with timerArmed := true }).2
              from loop_enabled_snd cfg s hs] at h1
          rcases List.mem_cons.mp h1 with e1 | h2
          · rw [e1] at hax
            simp [Action.axisOf] at hax
          · rcases moveGo_mem_shape cfg cfg.axis _ act h2 with ⟨w, e1⟩ | ⟨b1, k, e1, hb1, hbe⟩
            · rw [e1] at hax
              simp [Action.axisOf] at hax
            · rw [e1] at hax
              simp only [Action.axisOf, Option.some.injEq] at hax
              subst hax
              exact ⟨hb1, hbe⟩
        · have hs2 : s.enabled = false := by simpa using hs
          rw [show (step cfg s Event.tick).2 = [] from by simp [step, loop, hs2]] at h1
          simp at h1
      | setCommand i v => simp [step] at h1
    · exact ih _ act b h1 hax

/-- C8: every per-axis device call emitted across activation and any
sequence of later events names a truthy configured axis; a slot configured
as `None` (or an empty name) never receives a frequency, voltage or steps
call, whatever values are buffered. -/
theorem C8_none_slots_never_called (cfg : Config) (es : List Event) (act : Action) (b : String)
    (hact : act ∈ (on_activate cfg).2 ++ (run cfg (on_activate cfg).1 es).2)
    (hax : act.axisOf = some b) :
    some b ∈ cfg.axis ∧ b.isEmpty = false := by
  rcases List.mem_append.mp hact with h1 | h1
  · rw [show (on_activate cfg).2
        = setup_axis cfg ++ [Action.timerStart (timer_interval cfg)] from rfl] at h1
    rcases List.mem_append.mp h1 with h2 | h2
    · rcases setup_axisGo_mem cfg cfg.axis act h2 with ⟨b1, e, hb1, hbe⟩
      rcases e with e1 | e1 <;> rw [e1] at hax <;>
        simp only [Action.axisOf, Option.some.injEq] at hax <;> subst hax <;> exact ⟨hb1, hbe⟩
    · have e1 : act = Action.timerStart (timer_interval cfg) := by simpa using h2
      rw [e1] at hax
      simp [Action.axisOf] at hax
  · exact run_axis_calls cfg es _ act b h1 hax

/-- C8, witness: the frequency call of axis x during activation addresses
a configured, nonempty axis name. -/
theorem C8_witness : some "x" ∈ cfg0.axis ∧ ("x" : String).isEmpty = false := by
  refine C8_none_slots_never_called cfg0 [] (Action.frequency "x" 1000) "x" ?_ rfl
  simp [on_activate, startLoop, start_timer, setup_axis, setup_axisGo, cfg0, run,
    isEmpty_x, isEmpty_y]

/-- C10: the joystick reader divides the raw signed 16-bit thumbstick
value by 32767, so the produced axis value ranges over
`[-32768/32767, 1]`; at the most negative raw value -32768 the result is
`-32768/32767`, which is strictly below -1 and trips the drive loop's
out-of-range check in `move_axis` (an error is logged). -/
theorem C10_thumb_normalization_range (g : XINPUT_GAMEPAD) (cfg : Config)
    (hlo : -32768 ≤ g.sThumbLX) (hhi : g.sThumbLX ≤ 32767) :
    (get_state_axis g).left_vertical = (g.sThumbLX : ℚ) / 32767
      ∧ (-32768 : ℚ) / 32767 ≤ (get_state_axis g).left_vertical
      ∧ (get_state_axis g).left_vertical ≤ 1
      ∧ (g.sThumbLX = -32768 →
          (get_state_axis g).left_vertical < -1
            ∧ Action.logError ((get_state_axis g).left_vertical)
                ∈ move_axis cfg "x" ((get_state_axis g).left_vertical)) := by
  have hv : (get_state_axis g).left_vertical = (g.sThumbLX : ℚ) / 32767 := rfl
  refine ⟨hv, ?_, ?_, ?_⟩
  · rw [hv]
    exact (div_le_div_iff_of_pos_right (by norm_num : (0:ℚ) < 32767)).mpr (by exact_mod_cast hlo)
  · rw [hv, div_le_one (by norm_num : (0:ℚ) < 32767)]
    exact_mod_cast hhi
  · intro e
    have hcast : ((g.sThumbLX : ℚ)) = -32768 := by rw [e]; norm_num
    have hval : (get_state_axis g).left_vertical = (-32768 : ℚ) / 32767 := by
      rw [hv, hcast]
    rw [hval]
    constructor
    · norm_num
    · have hv0 : (-32768 : ℚ) / 32767 ≠ 0 := by norm_num
      have hvr : (-32768 : ℚ) / 32767 < -1 ∨ (-32768 : ℚ) / 32767 > 1 := Or.inl (by norm_num)
      unfold move_axis
      rw [if_neg hv0, if_pos hvr]
      exact List.mem_cons_self _ _

/-- C10, witness at the concrete most-negative gamepad snapshot. -/
theorem C10_witness :
    (-32768 : ℚ) / 32767 ≤ (get_state_axis g0).left_vertical
      ∧ (get_state_axis g0).left_vertical < -1
      ∧ Action.logError ((get_state_axis g0).left_vertical)
          ∈ move_axis cfg0 "x" ((get_state_axis g0).left_vertical) := by
  have h := C10_thumb_normalization_range g0 cfg0 (by decide) (by decide)
  exact ⟨h.2.1, (h.2.2.2 rfl).1, (h.2.2.2 rfl).2⟩

end AnalogSteppers
